import Mathlib

/-!
Verification of the DAB C++ adapter framework (dab-adapter-cpp).

This file gives a shallow embedding of the components the claims are about:

* the JSON value model and its codec (`src/Json.h`, `src/Json.cpp`):
  the `jsonElement` variant, the recursive-descent constructor
  `jsonElement(char const **)`, `jsonParser`, `jsonElement::serialize`,
  the accessors `has`, `operator[] const`, and the mutable
  `operator[](T index)`;
* the bridge (`src/dabBridge.h`): `dabBridge::dispatch` and
  `dabBridge::getTopics`;
* the MQTT seam (`src/dabMqttInterface.h`): `getResponseTopic` and the
  `messageArrived` callback.

Modelling conventions:

* C++ `int64_t` is `Int`; the `int64_t` range bound appears explicitly where
  the code's behaviour depends on it (`std::stoll` throws `out_of_range`).
* C++ `char const *` buffers are `List Char`; reading the terminating NUL of
  an exhausted buffer is modelled by `List.headD s nulC` (`nulC = '\x00'`),
  matching `**str` on the C string.  Because `isNum` accepts `'\0'`
  (`c <= '-'`), a number token that reaches the end of the buffer makes the
  C++ loop consume the terminating NUL and read past the buffer — undefined
  behaviour that can never be a clean parse; the model returns an error for
  such tokens (`parseNum`), so no theorem asserts success there.
* The parser carries explicit fuel; every recursive call decrements it.  The
  fuel used by the top-level entry point (`input length + 1`) exceeds the
  recursion depth of every successful parse (each nesting level and each
  loop iteration consumes input), so the fueled function returns exactly
  what the C++ recursion returns on every input the C++ parser accepts; on
  inputs both reject, the error message may differ.
* `std::map<std::string, jsonElement>` states are association lists that are
  strictly sorted by key (the `std::map` invariant); `mapInsert` is
  `obj[name] = v` (insert-or-assign, keeping sortedness).
* The `double` variant of the C++ `jsonElement` is not embedded (floating
  point); the parser's float branch is provably dead code anyway because
  `isNum` accepts neither '.' nor 'e' (see `parseNum_float_branch_dead`),
  so no parse result ever inhabits the `double` variant.
* The transient `decltype(array)` sentinel variant is not embedded; it never
  appears after construction and `serialize` ignores it.
-/

/-- The NUL character: what `**str` reads on an exhausted C string. -/
def nulC : Char := '\x00'

/-- Head of a C-string buffer: the next byte, or NUL at the end. -/
def headC (s : List Char) : Char := s.headD nulC

/-- `jsonElement::isSpace` (src/Json.h:506). -/
def isSpace (c : Char) : Bool :=
  c = ' ' || c = '\t' || c = '\r' || c = '\n'

/-- `jsonElement::isSymbolB` (src/Json.h:515): letters and underscore. -/
def isSymbolB (c : Char) : Bool :=
  ('a' ≤ c && c ≤ 'z') || ('A' ≤ c && c ≤ 'Z') || c = '_'

/-- `jsonElement::isNum` (src/Json.h:524).  The source reads
`(c >= '0' && c <= '9') || c == '+' || c <= '-'`; the last disjunct makes
every byte up to `'-'` (code 45) — including space, '!', '"' and ',' —
count as a number character, while '.' (code 46) and 'e' do not. -/
def isNum (c : Char) : Bool :=
  ('0' ≤ c && c ≤ '9') || c = '+' || c ≤ '-'

/-- `jsonElement::isNumB` (src/Json.h:533). -/
def isNumB (c : Char) : Bool :=
  isNum c || c = 'e'

/-- `jsonElement::isSymbol` (src/Json.h:542): `isSymbolB` plus digits. -/
def isSymbol (c : Char) : Bool :=
  isSymbolB c || ('0' ≤ c && c ≤ '9')

/-- The JSON value model of `jsonElement` (src/Json.h:40): the variant
`monostate / int64_t / std::string / objectType / arrayType / bool`.
`jObj` models `objectType = std::map<std::string, jsonElement>` as its
sorted entry list.  The `double` and array-hint variants are omitted (see
the header comment). -/
inductive jsonElement where
  | jNull : jsonElement
  | jBool (b : Bool) : jsonElement
  | jInt (n : Int) : jsonElement
  | jStr (s : String) : jsonElement
  | jArr (elems : List jsonElement) : jsonElement
  | jObj (fields : List (String × jsonElement)) : jsonElement
deriving BEq

/-- Byte-wise lexicographic `<` on char lists: `std::less<std::string>`. -/
def ltL : List Char → List Char → Bool
  | [], [] => false
  | [], _ :: _ => true
  | _ :: _, [] => false
  | a :: as, b :: bs => if a < b then true else if b < a then false else ltL as bs

/-- `std::less<std::string>` on strings. -/
def ltStr (a b : String) : Bool := ltL a.data b.data

/-- `std::map::operator[]`-assignment `obj[name] = v`): insert or assign,
keeping the entry list strictly sorted by key. -/
def mapInsert (k : String) (v : jsonElement) :
    List (String × jsonElement) → List (String × jsonElement)
  | [] => [(k, v)]
  | (k', v') :: t =>
    if ltStr k k' then (k, v) :: (k', v') :: t
    else if k = k' then (k, v) :: t
    else (k', v') :: mapInsert k v t

/-- `std::map::find` on the entry list. -/
def lookupF (k : String) : List (String × jsonElement) → Option jsonElement
  | [] => none
  | (k', v) :: t => if k = k' then some v else lookupF k t

/-- `jsonElement::has` (src/Json.h:305): present and not `monostate`. -/
def hasF (v : jsonElement) (k : String) : Bool :=
  match v with
  | .jObj l =>
    match lookupF k l with
    | some x => match x with
      | .jNull => false
      | _ => true
    | none => false
  | _ => false

/-- `jsonElement::operator[](std::string_view) const` (src/Json.h:339):
strict lookup, throwing `"element not found"` for a missing key, a
`monostate` value, or a non-object receiver. -/
def constGet (v : jsonElement) (k : String) : Except String jsonElement :=
  match v with
  | .jObj l =>
    match lookupF k l with
    | some x => match x with
      | .jNull => .error "element not found"
      | _ => .ok x
    | none => .error "element not found"
  | _ => .error "element not found"

/-- One decimal digit as a character. -/
def digitChar : Nat → Char
  | 0 => '0'
  | 1 => '1'
  | 2 => '2'
  | 3 => '3'
  | 4 => '4'
  | 5 => '5'
  | 6 => '6'
  | 7 => '7'
  | 8 => '8'
  | 9 => '9'
  | _ => '0'

/-- Decimal digits of a natural number, most significant first, as produced
by `std::to_string`.  Fueled so that the definition is structural; the fuel
`n + 1` used by `natChars` always suffices (`natCharsAux_irrel`). -/
def natCharsAux : Nat → Nat → List Char
  | 0, _ => []
  | fuel + 1, n =>
    if n < 10 then [digitChar n]
    else natCharsAux fuel (n / 10) ++ [digitChar (n % 10)]

/-- Decimal digits of a natural number, most significant first. -/
def natChars (n : Nat) : List Char := natCharsAux (n + 1) n

/-- `std::to_string(int64_t)` (the serializer's number formatting). -/
def intChars : Int → List Char
  | Int.ofNat n => natChars n
  | Int.negSucc m => '-' :: natChars (m + 1)

/-- ASCII decimal digit test (`isdigit`, as used by `std::stoll`). -/
def isDigitC (c : Char) : Bool := '0' ≤ c && c ≤ '9'

/-- Value of a digit string, most significant first. -/
def digitsVal (ds : List Char) : Nat :=
  ds.foldl (fun a d => 10 * a + (d.toNat - 48)) 0

/-- Whitespace for `std::stoll` (`isspace`). -/
def stollSpace (c : Char) : Bool :=
  c = ' ' || c = '\t' || c = '\n' || c = '\x0b' || c = '\x0c' || c = '\r'

/-- `std::stoll` on the unconsumed tail `r` after an optional sign: read the
leading digit run; no digits is `invalid_argument`; a value outside the
`int64_t` range is `out_of_range`.  Trailing non-digits are ignored, exactly
as `stoll` stops at the first non-digit. -/
def stollDigits (r : List Char) (sign : Int) : Except String Int :=
  let ds := r.takeWhile isDigitC
  if ds.isEmpty then .error "stoll: invalid argument"
  else
    let n : Int := sign * (digitsVal ds : Nat)
    if -(2 ^ 63) ≤ n ∧ n ≤ 2 ^ 63 - 1 then .ok n else .error "stoll: out of range"

/-- `std::stoll`: optional whitespace, optional single sign, digits. -/
def stollM (s : List Char) : Except String Int :=
  let s1 := s.dropWhile stollSpace
  if headC s1 = '+' then stollDigits s1.tail 1
  else if headC s1 = '-' then stollDigits s1.tail (-1)
  else stollDigits s1 1

/-- Hex digit for the serializer's `%HH` escape. -/
def hexDigit (n : Nat) : Char := "0123456789ABCDEF".data.getD n '0'

/-- The serializer's per-character string escaping (the `switch` in
src/Json.cpp:387): named escapes for `"`, `\`, CR, LF, TAB; `%HH` for bytes
outside 32..127 (`it < 32 || it > 127` on a signed `char` escapes exactly
the bytes below 32 and above 127); everything else verbatim. -/
def escChar (c : Char) : List Char :=
  if c = '"' then ['\\', '"']
  else if c = '\\' then ['\\', '\\']
  else if c = '\r' then ['\\', 'r']
  else if c = '\n' then ['\\', 'n']
  else if c = '\t' then ['\\', 't']
  else if c.toNat < 32 || c.toNat > 127 then
    ['%', hexDigit ((c.toNat % 256) / 16), hexDigit (c.toNat % 16)]
  else [c]

/-- Escape a whole string value. -/
def escChars : List Char → List Char
  | [] => []
  | c :: cs => escChar c ++ escChars cs

mutual

/-- `jsonElement::serialize(buff, quoteNames)` (src/Json.cpp:339) as the
emitted character list.  Objects iterate the `std::map` in key order. -/
def serialize : jsonElement → Bool → List Char
  | .jObj l, q => '{' :: serFields l q ++ ['}']
  | .jArr l, q => '[' :: serElems l q ++ [']']
  | .jInt n, _ => intChars n
  | .jStr s, _ => '"' :: escChars s.data ++ ['"']
  | .jBool true, _ => "true".data
  | .jBool false, _ => "false".data
  | .jNull, _ => "null".data

/-- One `name:value` object entry (the name quoted when `q`). -/
def serField : (String × jsonElement) → Bool → List Char
  | (k, v), q =>
    (if q then '"' :: k.data ++ ['"'] else k.data) ++ ':' :: serialize v q

/-- Object body: entries joined by `,` (the `first` flag in the source). -/
def serFields : List (String × jsonElement) → Bool → List Char
  | [], _ => []
  | f :: fs, q => serField f q ++ serFieldsTail fs q

/-- Object body continuation: a `,` before every further entry. -/
def serFieldsTail : List (String × jsonElement) → Bool → List Char
  | [], _ => []
  | f :: fs, q => ',' :: serField f q ++ serFieldsTail fs q

/-- Array body: elements joined by `,`. -/
def serElems : List jsonElement → Bool → List Char
  | [], _ => []
  | e :: es, q => serialize e q ++ serElemsTail es q

/-- Array body continuation: a `,` before every further element. -/
def serElemsTail : List jsonElement → Bool → List Char
  | [], _ => []
  | e :: es, q => ',' :: serialize e q ++ serElemsTail es q

end

/-- `while (isSpace(**str)) (*str)++` — skip spaces and EOL characters. -/
def skipSpace (s : List Char) : List Char := s.dropWhile isSpace

/-- The string-value loop of `jsonElement(char const **)`
(src/Json.cpp:153-196): read up to the closing quote, resolving `\"`,
`\r`, `\n`, `\t`, and any other `\x` to the literal `x`; running out of
input (`**str == 0`), also directly after a backslash, throws
`missing "`. -/
def parseStringBody : List Char → Except String (List Char × List Char)
  | [] => .error "missing \""
  | c :: rest =>
    if c = '"' then .ok ([], rest)
    else if c = '\\' then
      match rest with
      | [] => .error "missing \""
      | d :: rest' =>
        let ch := if d = 'r' then '\r' else if d = 'n' then '\n'
                  else if d = 't' then '\t' else d
        (parseStringBody rest').map (fun p => (ch :: p.1, p.2))
    else (parseStringBody rest).map (fun p => (c :: p.1, p.2))

/-- The quoted-name loop of the object branch (src/Json.cpp:73-87): read
verbatim (no escapes) up to the closing quote; end of input throws. -/
def parseQuotedName (s : List Char) : Except String (List Char × List Char) :=
  match s.dropWhile (fun c => !(c = '"')) with
  | [] => .error "missing \""
  | _ :: r => .ok (s.takeWhile (fun c => !(c = '"')), r)

/-- The number branch (src/Json.cpp:197-216): consume the `isNum` run,
remember whether a '.' or 'e' was seen inside it (`isFloat`), then convert
with `std::stod` or `std::stoll`.  Two faithfulness points: (1) `isNum`
accepts `'\0'`, so when the run reaches the end of the buffer the C++ loop
consumes the terminating NUL and overruns it — undefined behaviour that
cannot be a clean success, modelled as an error; (2) the float branch is
dead code — `isNum` accepts neither '.' nor 'e'
(`parseNum_float_branch_dead`) — so the model gives it an error sentinel
that is never returned. -/
def parseNum (s : List Char) : Except String (jsonElement × List Char) :=
  let tok := s.takeWhile isNum
  let rest := s.dropWhile isNum
  if rest.isEmpty then .error "number token overruns the buffer"
  else if tok.any (fun c => c = '.') || tok.any (fun c => c = 'e') then
    .error "unreachable float branch"
  else
    (stollM tok).map (fun n => (jsonElement.jInt n, rest))

mutual

/-- `jsonElement::jsonElement(char const **str)` (src/Json.cpp:27), the
recursive-descent parser, with explicit fuel: skip spaces, then dispatch on
the next byte: `{` object, `[` array, `"` string, `isNumB` number, then the
literals `true` / `false` / `null` checked by prefix (`memcmp`), else throw
`missing "`. -/
def parseElem : Nat → List Char → Except String (jsonElement × List Char)
  | 0, _ => .error "out of fuel"
  | fuel + 1, s0 =>
    let s := skipSpace s0
    if headC s = '{' then parseObjLoop fuel s.tail [] true
    else if headC s = '[' then parseArrLoop fuel s.tail [] true
    else if headC s = '"' then
      (parseStringBody s.tail).map (fun p => (jsonElement.jStr (String.mk p.1), p.2))
    else if isNumB (headC s) then parseNum s
    else if s.take 4 = "true".data then .ok (.jBool true, s.drop 4)
    else if s.take 5 = "false".data then .ok (.jBool false, s.drop 5)
    else if s.take 4 = "null".data then .ok (.jNull, s.drop 4)
    else .error "missing \""

/-- The object loop (src/Json.cpp:42-115): stop at `}`; after the first
entry require a `,`, tolerating a trailing comma before `}`; then parse one
`name:value` entry (`parseField`). -/
def parseObjLoop : Nat → List Char → List (String × jsonElement) → Bool →
    Except String (jsonElement × List Char)
  | 0, _, _, _ => .error "out of fuel"
  | fuel + 1, s0, acc, first =>
    let s := skipSpace s0
    if headC s = '}' then .ok (.jObj acc, s.tail)
    else if first then parseField fuel s acc
    else if headC s = ',' then
      let s2 := skipSpace s.tail
      if headC s2 = '}' then .ok (.jObj acc, s2.tail)
      else parseField fuel s2 acc
    else .error "missing comma"

/-- One object entry (src/Json.cpp:71-114): a quoted name read verbatim, or
an unquoted name whose first byte must pass `isSymbol` and whose body is
the `isSymbolB` run; a `:`; then the value, stored with `obj[name] = v`. -/
def parseField : Nat → List Char → List (String × jsonElement) →
    Except String (jsonElement × List Char)
  | 0, _, _ => .error "out of fuel"
  | fuel + 1, s, acc => do
    let (name, s1) ←
      if headC s = '"' then parseQuotedName s.tail
      else if isSymbol (headC s) then
        .ok (s.takeWhile isSymbolB, s.dropWhile isSymbolB)
      else .error "invalid json symbol value"
    let s2 := skipSpace s1
    if headC s2 = ':' then
      let s3 := skipSpace s2.tail
      let (v, s4) ← parseElem fuel s3
      parseObjLoop fuel s4 (mapInsert (String.mk name) v acc) false
    else .error "missing name/value separator"

/-- The array loop (src/Json.cpp:116-152): stop at `]`; after the first
element require a `,` (no trailing comma tolerated); `push_back` each
element. -/
def parseArrLoop : Nat → List Char → List jsonElement → Bool →
    Except String (jsonElement × List Char)
  | 0, _, _, _ => .error "out of fuel"
  | fuel + 1, s0, acc, first =>
    let s := skipSpace s0
    if headC s = ']' then .ok (.jArr acc, s.tail)
    else if first then do
      let (v, s') ← parseElem fuel s
      parseArrLoop fuel s' (acc ++ [v]) false
    else if headC s = ',' then do
      let (v, s') ← parseElem fuel (skipSpace s.tail)
      parseArrLoop fuel s' (acc ++ [v]) false
    else .error "missing comma"

end

/-- `jsonParser(char const *str)` (src/Json.cpp:434): parse one element,
skip trailing spaces, and throw `invalid json` unless the buffer is fully
consumed.  The fuel `length + 1` exceeds the recursion depth of every
successful parse (each nesting level consumes at least one byte), so the
`out of fuel` branch never replaces a C++ success. -/
def jsonParser (str : String) : Except String jsonElement := do
  let (result, rest) ← parseElem (str.data.length + 1) str.data
  if (skipSpace rest).isEmpty then pure result else .error "invalid json"

/-- The underlying `arrayType` after the coercion step of the mutable
`operator[](T index)` (src/Json.h:239): a non-array receiver is replaced by
an empty array first. -/
def coerceArr : jsonElement → List jsonElement
  | .jArr l => l
  | _ => []

/-- `jsonElement::operator[](T index)` (src/Json.h:239-256) as a pure step:
the receiver becomes an array if it is not one; the vector is resized to
`index + 1` (appending one default `jNull`) only when `index == size()`;
then `arr[index]` is returned.  `some (v', e)` is the updated receiver and
the referenced element; `none` is the out-of-bounds `std::vector` access
(undefined behaviour) taken when `index > size()`. -/
def arrIndexMut (v : jsonElement) (i : Nat) : Option (jsonElement × jsonElement) :=
  let arr := coerceArr v
  let arr' := if i = arr.length then arr ++ [jsonElement.jNull] else arr
  match arr'.get? i with
  | some e => some (.jArr arr', e)
  | none => none

/-- The mutable `obj[name] = x` path (src/Json.h:229 with assignment): a
non-object receiver is replaced by an empty object, then the entry is
inserted or assigned. -/
def setField (v : jsonElement) (k : String) (x : jsonElement) : jsonElement :=
  match v with
  | .jObj l => .jObj (mapInsert k x l)
  | _ => .jObj (mapInsert k x [])

/-- `DAB::dabException` (declared in dabClient.h, used throughout src):
an error code plus text. -/
structure dabException where
  errorCode : Int
  errorText : String
deriving DecidableEq

/-- What C++ code in this repository can throw: `dabException`, or one of
the `char const *` literals thrown by `jsonElement` (e.g.
`"invalid json string value"`). -/
inductive cppError where
  | dab (e : dabException) : cppError
  | other (s : String) : cppError
deriving DecidableEq

/-- A device adapter as the bridge sees it (`dabInterface`): its `dispatch`
entry point and its `getTopics` subscription list.  The adapter's internal
behaviour is opaque to the bridge. -/
structure dabInterface where
  dispatchFn : jsonElement → Except cppError jsonElement
  topics : List String

/-- Adapter lookup, `instances.find(deviceId)`. -/
def lookupInstance (k : String) : List (String × dabInterface) → Option dabInterface
  | [] => none
  | (k', v) :: t => if k = k' then some v else lookupInstance k t

/-- Index of the first `/`, `find_first_of('/')` on a `std::string_view`. -/
def findSlash (s : List Char) : Option Nat := s.findIdx? (fun c => c = '/')

/-- `dabBridge::dispatch` (src/dabBridge.h:37-61): require a `topic` member
(else 400 `no topic found`) that coerces to a string (a non-string throws
the literal `invalid json string value`); require the `dab/` prefix (else
400 `topic is malformed`); find the next `/` in the remainder (none: 400
`topic is malformed`); split off `deviceId` and dispatch to the instance
found under it (absent: 400 `deviceId does not exist`). -/
def bridgeDispatch (instances : List (String × dabInterface)) (json : jsonElement) :
    Except cppError jsonElement :=
  if hasF json "topic" then
    match constGet json "topic" with
    | .error e => .error (.other e)
    | .ok t =>
      match t with
      | .jStr topic =>
        if topic.data.take 4 = "dab/".data then
          let after := topic.data.drop 4
          match findSlash after with
          | none => .error (.dab ⟨400, "topic is malformed"⟩)
          | some slashPos =>
            let deviceId := String.mk (after.take slashPos)
            match lookupInstance deviceId instances with
            | some inst => inst.dispatchFn json
            | none => .error (.dab ⟨400, "deviceId does not exist"⟩)
        else .error (.dab ⟨400, "topic is malformed"⟩)
      | _ => .error (.other "invalid json string value")
  else .error (.dab ⟨400, "no topic found"⟩)

/-- The bridge's state: its `instances` map (`std::map`, here the sorted
entry list established at bootstrap by `makeDeviceInstance`). -/
structure dabBridge where
  instances : List (String × dabInterface)

/-- `dabBridge::dispatch` with the bridge state threaded explicitly, so
that the frame effect on `instances` is part of the result.  Every branch
of the source only reads the map (`instances.find`), so every branch
returns the state it received. -/
def bridgeDispatchSt (b : dabBridge) (json : jsonElement) :
    dabBridge × Except cppError jsonElement :=
  if hasF json "topic" then
    match constGet json "topic" with
    | .error e => (b, .error (.other e))
    | .ok t =>
      match t with
      | .jStr topic =>
        if topic.data.take 4 = "dab/".data then
          match findSlash (topic.data.drop 4) with
          | none => (b, .error (.dab ⟨400, "topic is malformed"⟩))
          | some slashPos =>
            match lookupInstance (String.mk ((topic.data.drop 4).take slashPos))
                b.instances with
            | some inst => (b, inst.dispatchFn json)
            | none => (b, .error (.dab ⟨400, "deviceId does not exist"⟩))
        else (b, .error (.dab ⟨400, "topic is malformed"⟩))
      | _ => (b, .error (.other "invalid json string value"))
  else (b, .error (.dab ⟨400, "no topic found"⟩))

/-- `dabBridge::getTopics` (src/dabBridge.h:63-72) with the state threaded:
concatenate every instance's topics, reading the map only. -/
def bridgeGetTopicsSt (b : dabBridge) : dabBridge × List String :=
  (b, b.instances.foldl (fun acc inst => acc ++ inst.2.topics) [])

/-- The MQTT5 request properties `messageArrived` consults: the
response-topic property and the correlation-data property (opaque bytes). -/
structure mqttProps where
  responseTopic : Option String
  correlationData : Option (List Nat)
deriving DecidableEq

/-- A message handed to `MQTTClient_publishMessage5`: destination topic,
serialized payload, and the MQTT5 correlation-data property if attached. -/
structure publishedMsg where
  topic : String
  payload : String
  correlation : Option (List Nat)
deriving DecidableEq

/-- `dabMQTTInterface::getResponseTopic` (src/dabMqttInterface.h:54-65):
the MQTT5 response-topic property when present, else the hardcoded
`dab/response`. -/
def getResponseTopic (props : mqttProps) : String :=
  match props.responseTopic with
  | some t => t
  | none => "dab/response"

/-- The request object `messageArrived` hands to the bridge
(src/dabMqttInterface.h:87-93): the parsed payload with `topic` and
`payload` members written into it via the mutable `operator[]`.  The source
calls `jsonParser` on the same buffer a second time for the `payload`
member; the parse is deterministic, so the model reuses the first result. -/
def buildReq (topic : String) (payload : String) : Except String jsonElement :=
  (jsonParser payload).map (fun req0 =>
    setField (setField req0 "topic" (.jStr topic)) "payload" req0)

/-- `dabMQTTInterface::messageArrived` (src/dabMqttInterface.h:80-144) as
the list of publish calls it makes.  The payload is parsed (`jsonParser`),
`topic` / `payload` are added, the bridge dispatches, the response is
serialized with quoted names, the request's correlation-data bytes are
copied onto the reply when present, and exactly one
`MQTTClient_publishMessage5` call is made to `getResponseTopic`.  Any
exception before the publish — including the `dabException`s thrown by
`dabBridge::dispatch` — is caught by the surrounding `try`/`catch`, which
only logs: no publish happens.  A nonzero publish reason code raises after
the call, so the (failed) publish attempt is still in the list. -/
def messageArrived (disp : jsonElement → Except cppError jsonElement)
    (topic : String) (payload : String) (props : mqttProps) : List publishedMsg :=
  match buildReq topic payload with
  | .error _ => []
  | .ok req =>
    match disp req with
    | .error _ => []
    | .ok rsp =>
      [{ topic := getResponseTopic props
         payload := String.mk (serialize rsp true)
         correlation := props.correlationData }]

/-- Printable ASCII (32..126). -/
def printableC (c : Char) : Bool := 32 ≤ c.toNat && c.toNat ≤ 126

/-- An object key the serializer emits re-readably: printable ASCII with no
`"` (the serializer writes names verbatim without escaping, so a quote in a
key truncates it on re-parse). -/
def keyOK (k : String) : Bool := k.data.all (fun c => printableC c && !(c = '"'))

/-- The `int64_t` range. -/
def intFits (n : Int) : Bool := decide (-(2 ^ 63) ≤ n ∧ n ≤ 2 ^ 63 - 1)

/-- Is the value the `int64_t` variant? -/
def isIntV : jsonElement → Bool
  | .jInt _ => true
  | _ => false

/-- Strictly increasing keys: the `std::map` entry-list invariant. -/
def keysSorted : List (String × jsonElement) → Bool
  | [] => true
  | [_] => true
  | (k, _) :: (k', v') :: t => ltStr k k' && keysSorted ((k', v') :: t)

mutual

/-- The round-trippable fragment of the value model: `int64_t` values in
range, strings printable ASCII, keys additionally quote-free, objects with
the `std::map` sorted invariant — and every `int64_t` only in final
position of its enclosing array or object, because a serialized number in
any other position is followed by `,`, which `isNum` wrongly accepts, so
the re-parse swallows the separator. -/
def safeV : jsonElement → Bool
  | .jNull => true
  | .jBool _ => true
  | .jInt n => intFits n
  | .jStr s => s.data.all printableC
  | .jArr l => safeElems l
  | .jObj l => keysSorted l && safeFields l

/-- Array elements: each safe, and only the last may be an `int64_t`. -/
def safeElems : List jsonElement → Bool
  | [] => true
  | e :: es => safeV e && (es.isEmpty || !(isIntV e)) && safeElems es

/-- Object entries: keys re-readable, values safe, and only the last value
may be an `int64_t`. -/
def safeFields : List (String × jsonElement) → Bool
  | [] => true
  | (k, v) :: fs => keyOK k && safeV v && (fs.isEmpty || !(isIntV v)) && safeFields fs

end

/-- A number token stops cleanly here: at least one byte remains and it is
not an `isNum` byte.  An exhausted buffer is not a clean stop — there the
C++ loop consumes the terminating NUL and overruns (see `parseNum`). -/
def numStop (s : List Char) : Bool := !s.isEmpty && !(isNum (headC s))

theorem takeWhile_append_all {α : Type} {p : α → Bool} {l r : List α}
    (h : ∀ c ∈ l, p c = true) :
    (l ++ r).takeWhile p = l ++ r.takeWhile p := by
  induction l with
  | nil => simp
  | cons c t ih =>
    simp only [List.cons_append, List.takeWhile_cons, h c (by simp)]
    simp [ih (fun x hx => h x (by simp [hx]))]

theorem dropWhile_append_all {α : Type} {p : α → Bool} {l r : List α}
    (h : ∀ c ∈ l, p c = true) :
    (l ++ r).dropWhile p = r.dropWhile p := by
  induction l with
  | nil => simp
  | cons c t ih =>
    simp only [List.cons_append, List.dropWhile_cons, h c (by simp)]
    exact ih (fun x hx => h x (by simp [hx]))

theorem takeWhile_all {α : Type} {p : α → Bool} {l : List α}
    (h : ∀ c ∈ l, p c = true) : l.takeWhile p = l := by
  have := takeWhile_append_all (r := ([] : List α)) h
  simpa using this

theorem dropWhile_all {α : Type} {p : α → Bool} {l : List α}
    (h : ∀ c ∈ l, p c = true) : l.dropWhile p = [] := by
  have := dropWhile_append_all (r := ([] : List α)) h
  simpa using this

theorem skipSpace_cons_of_not {c : Char} {s : List Char} (h : isSpace c = false) :
    skipSpace (c :: s) = c :: s := by
  simp [skipSpace, List.dropWhile_cons, h]

theorem ltL_asymm {a b : List Char} (h : ltL a b = true) : ltL b a = false := by
  induction a generalizing b with
  | nil => cases b with
    | nil => simp [ltL] at h
    | cons y ys => simp [ltL]
  | cons x xs ih =>
    cases b with
    | nil => simp [ltL] at h
    | cons y ys =>
      simp only [ltL] at h ⊢
      by_cases hxy : x < y
      · have : ¬ y < x := fun hc => absurd (lt_trans hxy hc) (lt_irrefl x)
        simp [hxy, this, ne_of_gt hxy]
      · by_cases hyx : y < x
        · simp [hxy, hyx] at h
        · simp only [hxy, if_false, hyx] at h ⊢
          simp [ih h]

theorem ltL_irrefl (a : List Char) : ltL a a = false := by
  induction a with
  | nil => rfl
  | cons x xs ih => simp [ltL, ih]

theorem ltL_ne {a b : List Char} (h : ltL a b = true) : a ≠ b := by
  intro heq
  subst heq
  rw [ltL_irrefl] at h
  exact absurd h (by simp)

theorem ltL_trans {a b c : List Char} (h1 : ltL a b = true) (h2 : ltL b c = true) :
    ltL a c = true := by
  induction a generalizing b c with
  | nil =>
    cases c with
    | nil =>
      cases b with
      | nil => simpa using h1
      | cons y ys => simp [ltL] at h2
    | cons z zs => simp [ltL]
  | cons x xs ih =>
    cases b with
    | nil => simp [ltL] at h1
    | cons y ys =>
      cases c with
      | nil => simp [ltL] at h2
      | cons z zs =>
        simp only [ltL] at h1 h2 ⊢
        by_cases hxy : x < y
        · by_cases hyz : y < z
          · simp [lt_trans hxy hyz]
          · by_cases hzy : z < y
            · simp [hyz, hzy] at h2
            · have : y = z := le_antisymm (le_of_not_lt hzy) (le_of_not_lt hyz)
              subst this
              simp [hxy]
        · by_cases hyx : y < x
          · simp [hxy, hyx] at h1
          · have hxyeq : x = y := le_antisymm (le_of_not_lt hyx) (le_of_not_lt hxy)
            subst hxyeq
            simp only [hxy, if_false, lt_irrefl] at h1
            by_cases hyz : x < z
            · simp [hyz]
            · by_cases hzy : z < x
              · simp [hyz, hzy] at h2
              · simp only [hyz, if_false, hzy] at h2 ⊢
                exact ih h1 h2

theorem ltStr_asymm {a b : String} (h : ltStr a b = true) : ltStr b a = false :=
  ltL_asymm h

theorem ltStr_ne {a b : String} (h : ltStr a b = true) : a ≠ b := by
  intro heq
  subst heq
  exact absurd rfl (ltL_ne h)

theorem ltStr_trans {a b c : String} (h1 : ltStr a b = true) (h2 : ltStr b c = true) :
    ltStr a c = true := ltL_trans h1 h2

theorem mapInsert_append {k : String} {v : jsonElement}
    {acc : List (String × jsonElement)}
    (h : ∀ p ∈ acc, ltStr p.1 k = true) :
    mapInsert k v acc = acc ++ [(k, v)] := by
  induction acc with
  | nil => rfl
  | cons p t ih =>
    obtain ⟨k', v'⟩ := p
    have hlt : ltStr k' k = true := h (k', v') (by simp)
    have h1 : ltStr k k' = false := ltStr_asymm hlt
    have h2 : k ≠ k' := fun hkk => (ltStr_ne hlt) hkk.symm
    simp only [mapInsert, h1, if_false, h2, Bool.false_eq_true]
    simp [ih (fun q hq => h q (by simp [hq]))]

theorem keysSorted_tail {k : String} {v : jsonElement}
    {fs : List (String × jsonElement)}
    (h : keysSorted ((k, v) :: fs) = true) : keysSorted fs = true := by
  cases fs with
  | nil => rfl
  | cons q t =>
    obtain ⟨k', v'⟩ := q
    simp only [keysSorted, Bool.and_eq_true] at h
    exact h.2

theorem keysSorted_head_lt {k : String} {v : jsonElement}
    {fs : List (String × jsonElement)}
    (h : keysSorted ((k, v) :: fs) = true) :
    ∀ q ∈ fs, ltStr k q.1 = true := by
  induction fs generalizing k v with
  | nil => intro q hq; simp at hq
  | cons p t ih =>
    obtain ⟨k', v'⟩ := p
    simp only [keysSorted, Bool.and_eq_true] at h
    intro q hq
    rcases List.mem_cons.mp hq with rfl | hq'
    · exact h.1
    · exact ltStr_trans h.1 (ih h.2 q hq')

theorem digitChar_isDigit {d : Nat} (h : d < 10) : isDigitC (digitChar d) = true := by
  interval_cases d <;> decide

theorem digitChar_toNat {d : Nat} (h : d < 10) : (digitChar d).toNat = 48 + d := by
  interval_cases d <;> decide

theorem isDigitC_toNat {c : Char} (h : isDigitC c = true) :
    48 ≤ c.toNat ∧ c.toNat ≤ 57 := by
  simp only [isDigitC, Bool.and_eq_true, decide_eq_true_eq] at h
  obtain ⟨h1, h2⟩ := h
  constructor
  · exact h1
  · exact h2

theorem isDigitC_not_space {c : Char} (h : isDigitC c = true) :
    stollSpace c = false := by
  obtain ⟨h1, h2⟩ := isDigitC_toNat h
  simp only [stollSpace, Bool.or_eq_false_iff, decide_eq_false_iff_not]
  refine ⟨⟨⟨⟨⟨?_, ?_⟩, ?_⟩, ?_⟩, ?_⟩, ?_⟩ <;>
    (intro hc; subst hc; revert h1 h2; decide)

theorem isDigitC_isNum {c : Char} (h : isDigitC c = true) : isNum c = true := by
  simp only [isDigitC, Bool.and_eq_true] at h
  simp [isNum, h.1, h.2]

theorem isDigitC_ne {c : Char} (h : isDigitC c = true) {d : Char}
    (hd : isDigitC d = false) : c ≠ d := by
  intro hc
  subst hc
  rw [h] at hd
  exact absurd hd (by simp)

theorem natCharsAux_irrel {n : Nat} :
    ∀ {f1 f2 : Nat}, n < f1 → n < f2 → natCharsAux f1 n = natCharsAux f2 n := by
  induction n using Nat.strong_induction_on with
  | _ n ih =>
    intro f1 f2 h1 h2
    obtain ⟨g1, rfl⟩ : ∃ g, f1 = g + 1 := ⟨f1 - 1, by omega⟩
    obtain ⟨g2, rfl⟩ : ∃ g, f2 = g + 1 := ⟨f2 - 1, by omega⟩
    simp only [natCharsAux]
    by_cases hn : n < 10
    · simp [hn]
    · have hdiv : n / 10 < n := Nat.div_lt_self (by omega) (by omega)
      simp only [hn, if_false]
      have heq := @ih (n / 10) hdiv g1 g2 (by omega) (by omega)
      rw [heq]

theorem natChars_step {n : Nat} (h : ¬ n < 10) :
    natChars n = natChars (n / 10) ++ [digitChar (n % 10)] := by
  have hdiv : n / 10 < n := Nat.div_lt_self (by omega) (by omega)
  simp only [natChars, natCharsAux, h, if_false]
  have heq := @natCharsAux_irrel (n / 10) n (n / 10 + 1) (by omega) (by omega)
  rw [heq]
  rfl

theorem natChars_small {n : Nat} (h : n < 10) : natChars n = [digitChar n] := by
  simp [natChars, natCharsAux, h]

theorem natChars_all_digits (n : Nat) : ∀ c ∈ natChars n, isDigitC c = true := by
  induction n using Nat.strong_induction_on with
  | _ n ih =>
    by_cases hn : n < 10
    · rw [natChars_small hn]
      intro c hc
      simp only [List.mem_singleton] at hc
      subst hc
      exact digitChar_isDigit hn
    · rw [natChars_step hn]
      intro c hc
      rcases List.mem_append.mp hc with h | h
      · exact ih (n / 10) (Nat.div_lt_self (by omega) (by omega)) c h
      · simp only [List.mem_singleton] at h
        subst h
        exact digitChar_isDigit (Nat.mod_lt _ (by omega))

theorem natChars_ne_nil (n : Nat) : natChars n ≠ [] := by
  by_cases hn : n < 10
  · rw [natChars_small hn]; simp
  · rw [natChars_step hn]; simp

theorem digitsVal_append_digit (xs : List Char) (d : Char) :
    digitsVal (xs ++ [d]) = 10 * digitsVal xs + (d.toNat - 48) := by
  simp [digitsVal, List.foldl_append]

theorem natChars_val (n : Nat) : digitsVal (natChars n) = n := by
  induction n using Nat.strong_induction_on with
  | _ n ih =>
    by_cases hn : n < 10
    · rw [natChars_small hn]
      simp [digitsVal, digitChar_toNat hn]
    · rw [natChars_step hn, digitsVal_append_digit,
        ih (n / 10) (Nat.div_lt_self (by omega) (by omega)),
        digitChar_toNat (Nat.mod_lt _ (by omega))]
      omega

theorem stollM_natChars (n : Nat) (hn : (n : Int) ≤ 2 ^ 63 - 1) :
    stollM (natChars n) = .ok (n : Int) := by
  obtain ⟨d, ds, hc⟩ : ∃ d ds, natChars n = d :: ds := by
    cases hx : natChars n with
    | nil => exact absurd hx (natChars_ne_nil n)
    | cons d ds => exact ⟨d, ds, rfl⟩
  have hall := natChars_all_digits n
  rw [hc] at hall
  have hd : isDigitC d = true := hall d (by simp)
  have hdrop : (d :: ds).dropWhile stollSpace = d :: ds := by
    simp [List.dropWhile_cons, isDigitC_not_space hd]
  have hplus : (d = '+') = False := by
    simp only [eq_iff_iff, iff_false]
    exact isDigitC_ne hd (by decide)
  have hminus : (d = '-') = False := by
    simp only [eq_iff_iff, iff_false]
    exact isDigitC_ne hd (by decide)
  rw [hc, stollM]
  simp only [hdrop, headC, List.headD, hplus, hminus, if_false]
  rw [stollDigits]
  simp only [takeWhile_all hall]
  have hval : digitsVal (d :: ds) = n := by rw [← hc]; exact natChars_val n
  simp only [List.isEmpty_cons, Bool.false_eq_true, if_false, hval, one_mul]
  rw [if_pos ⟨le_trans (by norm_num) (Int.natCast_nonneg n), hn⟩]

theorem intFits_elim {i : Int} (h : intFits i = true) :
    -(2 ^ 63) ≤ i ∧ i ≤ 2 ^ 63 - 1 := by
  simpa [intFits] using h

theorem stollM_intChars {i : Int} (hfit : intFits i = true) :
    stollM (intChars i) = .ok i := by
  obtain ⟨hlo, hhi⟩ := intFits_elim hfit
  cases i with
  | ofNat n =>
    simpa [intChars] using stollM_natChars n (by exact_mod_cast hhi)
  | negSucc m =>
    obtain ⟨d, ds, hc⟩ : ∃ d ds, natChars (m + 1) = d :: ds := by
      cases hx : natChars (m + 1) with
      | nil => exact absurd hx (natChars_ne_nil (m + 1))
      | cons d ds => exact ⟨d, ds, rfl⟩
    have hall := natChars_all_digits (m + 1)
    rw [hc] at hall
    rw [intChars, stollM]
    have hdrop : ('-' :: natChars (m + 1)).dropWhile stollSpace
        = '-' :: natChars (m + 1) := by
      simp [List.dropWhile_cons, stollSpace]
    have h1 : (('-' : Char) = '+') = False := by decide
    have h2 : (('-' : Char) = '-') = True := by decide
    simp only [hdrop, headC, List.headD, h1, h2, if_false, if_true, List.tail_cons]
    rw [hc, stollDigits]
    simp only [takeWhile_all hall]
    have hval : digitsVal (d :: ds) = m + 1 := by rw [← hc]; exact natChars_val (m + 1)
    simp only [List.isEmpty_cons, Bool.false_eq_true, if_false, hval]
    have hres : (-1 : Int) * ((m + 1 : Nat) : Int) = Int.negSucc m := by
      rw [Int.negSucc_eq]
      push_cast
      ring
    rw [hres]
    rw [if_pos ⟨hlo, hhi⟩]

theorem intChars_all_isNum (i : Int) : ∀ c ∈ intChars i, isNum c = true := by
  cases i with
  | ofNat n =>
    intro c hc
    exact isDigitC_isNum (natChars_all_digits n c (by simpa [intChars] using hc))
  | negSucc m =>
    intro c hc
    simp only [intChars, List.mem_cons] at hc
    rcases hc with rfl | hc
    · decide
    · exact isDigitC_isNum (natChars_all_digits (m + 1) c hc)

theorem intChars_no_dot_e (i : Int) : ∀ c ∈ intChars i, c ≠ '.' ∧ c ≠ 'e' := by
  cases i with
  | ofNat n =>
    intro c hc
    have hd := natChars_all_digits n c (by simpa [intChars] using hc)
    exact ⟨isDigitC_ne hd (by decide), isDigitC_ne hd (by decide)⟩
  | negSucc m =>
    intro c hc
    simp only [intChars, List.mem_cons] at hc
    rcases hc with rfl | hc
    · exact ⟨by decide, by decide⟩
    · have hd := natChars_all_digits (m + 1) c hc
      exact ⟨isDigitC_ne hd (by decide), isDigitC_ne hd (by decide)⟩

theorem numStop_ne_nil {rest : List Char} (h : numStop rest = true) :
    rest.isEmpty = false := by
  cases rest with
  | nil => simp [numStop] at h
  | cons c t => rfl

theorem numStop_head {rest : List Char} (h : numStop rest = true) :
    isNum (headC rest) = false := by
  cases rest with
  | nil => simp [numStop] at h
  | cons c t =>
    simp only [numStop, List.isEmpty_cons, Bool.not_false, Bool.true_and,
      Bool.not_eq_true'] at h
    exact h

theorem numStop_takeWhile {rest : List Char} (h : numStop rest = true) :
    rest.takeWhile isNum = [] := by
  cases rest with
  | nil => rfl
  | cons c t =>
    have hc : isNum c = false := numStop_head h
    simp [List.takeWhile_cons, hc]

theorem numStop_dropWhile {rest : List Char} (h : numStop rest = true) :
    rest.dropWhile isNum = rest := by
  cases rest with
  | nil => rfl
  | cons c t =>
    have hc : isNum c = false := numStop_head h
    simp [List.dropWhile_cons, hc]

theorem parseNum_intChars {i : Int} (hfit : intFits i = true) {rest : List Char}
    (hstop : numStop rest = true) :
    parseNum (intChars i ++ rest) = .ok (.jInt i, rest) := by
  have htw : (intChars i ++ rest).takeWhile isNum = intChars i := by
    rw [takeWhile_append_all (intChars_all_isNum i), numStop_takeWhile hstop,
      List.append_nil]
  have hdw : (intChars i ++ rest).dropWhile isNum = rest := by
    rw [dropWhile_append_all (intChars_all_isNum i), numStop_dropWhile hstop]
  have hne : rest.isEmpty = false := numStop_ne_nil hstop
  rw [parseNum]
  simp only [htw, hdw, hne, Bool.false_eq_true, if_false]
  have hdot : (intChars i).any (fun c => decide (c = '.')) = false := by
    simp only [List.any_eq_false, decide_eq_true_eq]
    intro c hc
    exact (intChars_no_dot_e i c hc).1
  have he : (intChars i).any (fun c => decide (c = 'e')) = false := by
    simp only [List.any_eq_false, decide_eq_true_eq]
    intro c hc
    exact (intChars_no_dot_e i c hc).2
  simp only [hdot, he, Bool.or_self, Bool.false_eq_true, if_false]
  rw [stollM_intChars hfit]
  rfl

/-- The float branch of the number parse is dead code: the `isNum` token
can contain neither '.' nor 'e', so `isFloat` is never set and the parser
can never produce the `double` variant. -/
theorem parseNum_float_branch_dead (s : List Char) :
    ((s.takeWhile isNum).any (fun c => c = '.')
      || (s.takeWhile isNum).any (fun c => c = 'e')) = false := by
  simp only [Bool.or_eq_false_iff]
  constructor <;>
  · simp only [List.any_eq_false, decide_eq_true_eq]
    intro c hc hcontra
    subst hcontra
    have := List.mem_takeWhile_imp hc
    simp [isNum] at this

theorem stringMk_data (s : String) : String.mk s.data = s := by
  cases s
  rfl

theorem printableC_bounds {c : Char} (h : printableC c = true) :
    32 ≤ c.toNat ∧ c.toNat ≤ 126 := by
  simpa [printableC] using h

theorem printable_escChar {c : Char} (h : printableC c = true)
    (hq : ¬(c = '"')) (hb : ¬(c = '\\')) : escChar c = [c] := by
  obtain ⟨h1, h2⟩ := printableC_bounds h
  have hr : ¬(c = '\r') := by intro hc; subst hc; revert h1; decide
  have hn : ¬(c = '\n') := by intro hc; subst hc; revert h1; decide
  have ht : ¬(c = '\t') := by intro hc; subst hc; revert h1; decide
  have hhi : (c.toNat < 32 || c.toNat > 127) = false := by
    simp only [Bool.or_eq_false_iff, decide_eq_false_iff_not]
    omega
  simp [escChar, hq, hb, hr, hn, ht, hhi]

theorem parseStringBody_esc {s : List Char} (h : ∀ c ∈ s, printableC c = true)
    (rest : List Char) :
    parseStringBody (escChars s ++ '"' :: rest) = .ok (s, rest) := by
  induction s with
  | nil =>
    rw [escChars, List.nil_append, parseStringBody.eq_def]
    simp
  | cons c cs ih =>
    have hc : printableC c = true := h c (by simp)
    have ihcs := ih (fun x hx => h x (by simp [hx]))
    by_cases hq : c = '"'
    · subst hq
      have he : escChar '"' = ['\\', '"'] := rfl
      simp only [escChars, he, List.cons_append, List.append_assoc]
      rw [parseStringBody.eq_def]
      simp [ihcs, Except.map]
    · by_cases hb : c = '\\'
      · subst hb
        have he : escChar '\\' = ['\\', '\\'] := rfl
        simp only [escChars, he, List.cons_append, List.append_assoc]
        rw [parseStringBody.eq_def]
        simp [ihcs, Except.map]
      · rw [escChars, printable_escChar hc hq hb]
        simp only [List.cons_append, List.singleton_append]
        rw [parseStringBody.eq_def]
        simp [hq, hb, ihcs, Except.map]

theorem parseQuotedName_key {k : List Char} (h : ∀ c ∈ k, ¬(c = '"'))
    (rest : List Char) :
    parseQuotedName (k ++ '"' :: rest) = .ok (k, rest) := by
  have hall : ∀ c ∈ k, (!(c = '"') : Bool) = true := by
    intro c hc
    simp [h c hc]
  rw [parseQuotedName]
  rw [dropWhile_append_all hall, takeWhile_append_all hall]
  simp [List.dropWhile_cons, List.takeWhile_cons]

/-- The first emitted byte of any serialization: never a space and never
one of the separators the loops test for. -/
theorem serialize_head (v : jsonElement) (q : Bool) :
    ∃ c cs, serialize v q = c :: cs ∧ isSpace c = false ∧ ¬(c = ']') ∧
      ¬(c = '}') ∧ ¬(c = ',') := by
  cases v with
  | jNull => exact ⟨'n', _, rfl, by decide, by decide, by decide, by decide⟩
  | jBool b =>
    cases b with
    | true => exact ⟨'t', _, rfl, by decide, by decide, by decide, by decide⟩
    | false => exact ⟨'f', _, rfl, by decide, by decide, by decide, by decide⟩
  | jInt n =>
    cases n with
    | ofNat m =>
      obtain ⟨d, ds, hc⟩ : ∃ d ds, natChars m = d :: ds := by
        cases hx : natChars m with
        | nil => exact absurd hx (natChars_ne_nil m)
        | cons d ds => exact ⟨d, ds, rfl⟩
      have hd : isDigitC d = true := by
        have := natChars_all_digits m
        rw [hc] at this
        exact this d (by simp)
      refine ⟨d, ds, by simp [serialize, intChars, hc], ?_, ?_, ?_, ?_⟩
      · obtain ⟨h1, h2⟩ := isDigitC_toNat hd
        simp only [isSpace, Bool.or_eq_false_iff, decide_eq_false_iff_not]
        refine ⟨⟨⟨?_, ?_⟩, ?_⟩, ?_⟩ <;> (intro hcc; subst hcc; revert h1 h2; decide)
      · exact isDigitC_ne hd (by decide)
      · exact isDigitC_ne hd (by decide)
      · exact isDigitC_ne hd (by decide)
    | negSucc m =>
      exact ⟨'-', natChars (m + 1), by simp [serialize, intChars], by decide,
        by decide, by decide, by decide⟩
  | jStr s => exact ⟨'"', _, rfl, by decide, by decide, by decide, by decide⟩
  | jArr l => exact ⟨'[', _, rfl, by decide, by decide, by decide, by decide⟩
  | jObj l => exact ⟨'{', _, rfl, by decide, by decide, by decide, by decide⟩

theorem serialize_length_pos (v : jsonElement) (q : Bool) :
    1 ≤ (serialize v q).length := by
  obtain ⟨c, cs, hc, -⟩ := serialize_head v q
  simp [hc]

theorem skipSpace_serialize (v : jsonElement) (q : Bool) (R : List Char) :
    skipSpace (serialize v q ++ R) = serialize v q ++ R := by
  obtain ⟨c, cs, hc, hsp, -⟩ := serialize_head v q
  rw [hc, List.cons_append, skipSpace_cons_of_not hsp]

theorem intChars_mem_cases (i : Int) : ∀ c ∈ intChars i, isDigitC c = true ∨ c = '-' := by
  cases i with
  | ofNat n =>
    intro c hc
    exact Or.inl (natChars_all_digits n c (by simpa [intChars] using hc))
  | negSucc m =>
    intro c hc
    simp only [intChars, List.mem_cons] at hc
    rcases hc with rfl | hc
    · exact Or.inr rfl
    · exact Or.inl (natChars_all_digits (m + 1) c hc)

theorem serField_shape (k : String) (v : jsonElement) (R : List Char) :
    serField (k, v) true ++ R
      = '"' :: (k.data ++ '"' :: ':' :: (serialize v true ++ R)) := by
  simp [serField]

theorem serField_length (k : String) (v : jsonElement) :
    (serField (k, v) true).length = k.data.length + 3 + (serialize v true).length := by
  simp [serField]
  omega

theorem serArr_shape (l : List jsonElement) (R : List Char) :
    serialize (.jArr l) true ++ R = '[' :: (serElems l true ++ ']' :: R) := by
  simp [serialize]

theorem serObj_shape (l : List (String × jsonElement)) (R : List Char) :
    serialize (.jObj l) true ++ R = '{' :: (serFields l true ++ '}' :: R) := by
  simp [serialize]

mutual

/-- Re-parsing a serialized safe value consumes exactly the serialization:
the heart of the round-trip law, by mutual induction with the two loops. -/
theorem parseElem_ser (v : jsonElement) (fuel : Nat) (rest : List Char)
    (hsafe : safeV v = true)
    (hstop : isIntV v = true → numStop rest = true)
    (hfuel : (serialize v true).length < fuel) :
    parseElem fuel (serialize v true ++ rest) = .ok (v, rest) := by
  obtain ⟨f, rfl⟩ : ∃ g, fuel = g + 1 := ⟨fuel - 1, by omega⟩
  cases v with
  | jNull =>
    show parseElem (f + 1) ('n' :: 'u' :: 'l' :: 'l' :: rest) = .ok (.jNull, rest)
    rw [parseElem]
    rw [skipSpace_cons_of_not (by decide)]
    simp +decide [headC, List.headD, isNumB, isNum]
  | jBool b =>
    cases b with
    | true =>
      show parseElem (f + 1) ('t' :: 'r' :: 'u' :: 'e' :: rest) = .ok (.jBool true, rest)
      rw [parseElem]
      rw [skipSpace_cons_of_not (by decide)]
      simp +decide [headC, List.headD, isNumB, isNum]
    | false =>
      show parseElem (f + 1) ('f' :: 'a' :: 'l' :: 's' :: 'e' :: rest)
        = .ok (.jBool false, rest)
      rw [parseElem]
      rw [skipSpace_cons_of_not (by decide)]
      simp +decide [headC, List.headD, isNumB, isNum]
  | jStr s =>
    have hs : s.data.all printableC = true := by simpa [safeV] using hsafe
    show parseElem (f + 1) (('"' :: (escChars s.data ++ ['"'])) ++ rest)
      = .ok (.jStr s, rest)
    rw [List.cons_append, parseElem]
    rw [skipSpace_cons_of_not (by decide)]
    simp +decide [headC, List.headD]
    rw [parseStringBody_esc (by simpa [List.all_eq_true] using hs) rest]
    simp [Except.map, stringMk_data]
  | jInt n =>
    have hfit : intFits n = true := by simpa [safeV] using hsafe
    obtain ⟨c, cs, hc, hsp, h1, h2, h3⟩ := serialize_head (.jInt n) true
    have hser : serialize (.jInt n) true = intChars n := rfl
    have hic : intChars n = c :: cs := hser.symm.trans hc
    have hcases : isDigitC c = true ∨ c = '-' :=
      intChars_mem_cases n c (by rw [hic]; simp)
    have hne1 : ¬(c = '{') := by
      rcases hcases with hd | rfl
      · exact isDigitC_ne hd (by decide)
      · decide
    have hne2 : ¬(c = '[') := by
      rcases hcases with hd | rfl
      · exact isDigitC_ne hd (by decide)
      · decide
    have hne3 : ¬(c = '"') := by
      rcases hcases with hd | rfl
      · exact isDigitC_ne hd (by decide)
      · decide
    have hnb : isNumB c = true := by
      rcases hcases with hd | rfl
      · simp [isNumB, isDigitC_isNum hd]
      · decide
    rw [hser, hic, List.cons_append, parseElem, skipSpace_cons_of_not hsp]
    simp only [headC, List.headD]
    rw [if_neg hne1, if_neg hne2, if_neg hne3, if_pos hnb]
    rw [← List.cons_append, ← hic, parseNum_intChars hfit (hstop rfl)]
  | jArr l =>
    have hsl : safeElems l = true := by simpa [safeV] using hsafe
    have hlen : (serialize (.jArr l) true).length = (serElems l true).length + 2 := by
      simp [serialize]
    rw [serArr_shape, parseElem, skipSpace_cons_of_not (by decide)]
    simp only [headC, List.headD]
    rw [if_neg (by decide : ¬('[' : Char) = '{')]
    simp only [eq_self_iff_true, if_true, List.tail_cons]
    have := parseArrLoop_ser l [] true f rest hsl (by
      simp only [eq_self_iff_true, if_true]
      omega)
    simp only [eq_self_iff_true, if_true] at this
    rw [this]
    simp
  | jObj l =>
    have hparts : keysSorted l = true ∧ safeFields l = true := by
      have := hsafe
      simp only [safeV, Bool.and_eq_true] at this
      exact this
    have hlen : (serialize (.jObj l) true).length = (serFields l true).length + 2 := by
      simp [serialize]
    rw [serObj_shape, parseElem, skipSpace_cons_of_not (by decide)]
    simp only [headC, List.headD, eq_self_iff_true, if_true, List.tail_cons]
    have := parseObjLoop_ser l [] true f rest hparts.2 hparts.1
      (by intro p hp q hq; simp at hp) (by
      simp only [eq_self_iff_true, if_true]
      omega)
    simp only [eq_self_iff_true, if_true] at this
    rw [this]
    simp

/-- Re-parsing a serialized array body. -/
theorem parseArrLoop_ser (es : List jsonElement) (acc : List jsonElement)
    (first : Bool) (fuel : Nat) (rest : List Char)
    (hsafe : safeElems es = true)
    (hfuel : (if first then serElems es true else serElemsTail es true).length + 1
      < fuel) :
    parseArrLoop fuel
      ((if first then serElems es true else serElemsTail es true) ++ ']' :: rest)
      acc first
      = .ok (.jArr (acc ++ es), rest) := by
  obtain ⟨f, rfl⟩ : ∃ g, fuel = g + 1 := ⟨fuel - 1, by omega⟩
  cases es with
  | nil =>
    simp only [serElems, serElemsTail, ite_self, List.nil_append] at hfuel ⊢
    rw [parseArrLoop, skipSpace_cons_of_not (by decide)]
    simp [headC, List.headD]
  | cons e es' =>
    simp only [safeElems, Bool.and_eq_true] at hsafe
    obtain ⟨⟨hse, hlast⟩, hses⟩ := hsafe
    obtain ⟨c, cs, hc, hsp, h1, h2, h3⟩ := serialize_head e true
    have hstopR : isIntV e = true →
        numStop (serElemsTail es' true ++ ']' :: rest) = true := by
      intro hint
      cases es' with
      | nil => simp +decide [serElemsTail, numStop, headC, List.headD, isNum]
      | cons x xs =>
        rw [hint] at hlast
        simp at hlast
    have hlenE : 1 ≤ (serialize e true).length := serialize_length_pos e true
    cases first with
    | true =>
      simp only [serElems, eq_self_iff_true, if_true] at hfuel ⊢
      rw [List.append_assoc]
      rw [parseArrLoop, skipSpace_serialize]
      rw [hc, List.cons_append]
      simp only [headC, List.headD]
      rw [if_neg h1]
      simp only [eq_self_iff_true, if_true]
      rw [← List.cons_append, ← hc]
      have hlen2 : (serialize e true).length < f := by
        simp [List.length_append] at hfuel
        omega
      rw [parseElem_ser e f (serElemsTail es' true ++ ']' :: rest) hse hstopR hlen2]
      simp only [Except.instMonad, Except.bind]
      have := parseArrLoop_ser es' (acc ++ [e]) false f rest hses (by
        simp only [Bool.false_eq_true, if_false]
        simp [List.length_append] at hfuel ⊢
        omega)
      simp only [Bool.false_eq_true, if_false] at this
      rw [this]
      simp
    | false =>
      simp only [Bool.false_eq_true, if_false, serElemsTail] at hfuel ⊢
      rw [List.append_assoc, List.cons_append]
      rw [parseArrLoop,
        @skipSpace_cons_of_not ','
          (serialize e true ++ (serElemsTail es' true ++ ']' :: rest)) (by decide)]
      simp only [headC, List.headD]
      rw [if_neg (by decide : ¬(',' : Char) = ']')]
      simp only [Bool.false_eq_true, if_false, eq_self_iff_true, if_true]
      simp only [List.tail_cons]
      rw [skipSpace_serialize]
      have hlen2 : (serialize e true).length < f := by
        simp [List.length_append] at hfuel
        omega
      rw [parseElem_ser e f (serElemsTail es' true ++ ']' :: rest) hse hstopR hlen2]
      simp only [Except.instMonad, Except.bind]
      have := parseArrLoop_ser es' (acc ++ [e]) false f rest hses (by
        simp only [Bool.false_eq_true, if_false]
        simp [List.length_append] at hfuel ⊢
        omega)
      simp only [Bool.false_eq_true, if_false] at this
      rw [this]
      simp

/-- Re-parsing a serialized object body, accumulating into the sorted map. -/
theorem parseObjLoop_ser (fs : List (String × jsonElement))
    (acc : List (String × jsonElement)) (first : Bool) (fuel : Nat)
    (rest : List Char)
    (hsafe : safeFields fs = true)
    (hsort : keysSorted fs = true)
    (hacc : ∀ p ∈ acc, ∀ q ∈ fs, ltStr p.1 q.1 = true)
    (hfuel : (if first then serFields fs true else serFieldsTail fs true).length + 1
      < fuel) :
    parseObjLoop fuel
      ((if first then serFields fs true else serFieldsTail fs true) ++ '}' :: rest)
      acc first
      = .ok (.jObj (acc ++ fs), rest) := by
  obtain ⟨f, rfl⟩ : ∃ g, fuel = g + 1 := ⟨fuel - 1, by omega⟩
  cases fs with
  | nil =>
    simp only [serFields, serFieldsTail, ite_self, List.nil_append] at hfuel ⊢
    rw [parseObjLoop, skipSpace_cons_of_not (by decide)]
    simp [headC, List.headD]
  | cons kv fs' =>
    obtain ⟨k, v⟩ := kv
    simp only [safeFields, Bool.and_eq_true] at hsafe
    obtain ⟨⟨⟨hkey, hsv⟩, hlast⟩, hsfs⟩ := hsafe
    have hsort' : keysSorted fs' = true := keysSorted_tail hsort
    have hklt : ∀ q ∈ fs', ltStr k q.1 = true := keysSorted_head_lt hsort
    have hstopR : isIntV v = true →
        numStop (serFieldsTail fs' true ++ '}' :: rest) = true := by
      intro hint
      cases fs' with
      | nil => simp +decide [serFieldsTail, numStop, headC, List.headD, isNum]
      | cons x xs =>
        rw [hint] at hlast
        simp at hlast
    have hlenV : 1 ≤ (serialize v true).length := serialize_length_pos v true
    have hkeyne : ∀ c ∈ k.data, ¬(c = '"') := by
      intro c hc
      have := (List.all_eq_true.mp hkey) c hc
      simp only [Bool.and_eq_true, Bool.not_eq_eq_eq_not, Bool.not_true,
        decide_eq_false_iff_not] at this
      exact this.2
    have hfield : ∀ f2 : Nat, (serialize v true).length + 1 < f2 →
        (serFieldsTail fs' true).length + 2 < f2 →
        parseField f2 ('"' :: (k.data ++ '"' :: ':' ::
            (serialize v true ++ (serFieldsTail fs' true ++ '}' :: rest)))) acc
          = .ok (.jObj (acc ++ (k, v) :: fs'), rest) := by
      intro f2 hf2a hf2b
      obtain ⟨f3, rfl⟩ : ∃ g, f2 = g + 1 := ⟨f2 - 1, by omega⟩
      rw [parseField]
      simp only [headC, List.headD, eq_self_iff_true, if_true, List.tail_cons]
      rw [parseQuotedName_key hkeyne]
      simp only [Except.instMonad, Except.bind]
      rw [skipSpace_cons_of_not (by decide)]
      simp only [headC, List.headD, eq_self_iff_true, if_true, List.tail_cons]
      rw [skipSpace_serialize]
      rw [parseElem_ser v f3 (serFieldsTail fs' true ++ '}' :: rest) hsv hstopR
        (by omega)]
      simp only [Except.instMonad, Except.bind]
      rw [stringMk_data]
      rw [mapInsert_append (fun p hp => hacc p hp (k, v) (by simp))]
      have := parseObjLoop_ser fs' (acc ++ [(k, v)]) false f3 rest hsfs hsort'
        (by
          intro p hp q hq
          rcases List.mem_append.mp hp with hpa | hpk
          · exact hacc p hpa q (by simp [hq])
          · simp only [List.mem_singleton] at hpk
            subst hpk
            exact hklt q hq)
        (by
          simp only [Bool.false_eq_true, if_false]
          omega)
      simp only [Bool.false_eq_true, if_false] at this
      rw [this]
      simp
    cases first with
    | true =>
      simp only [serFields, eq_self_iff_true, if_true] at hfuel ⊢
      rw [List.append_assoc, serField_shape]
      rw [parseObjLoop, skipSpace_cons_of_not (by decide)]
      simp only [headC, List.headD]
      rw [if_neg (by decide : ¬('"' : Char) = '}')]
      simp only [eq_self_iff_true, if_true, List.tail_cons]
      have hlen := serField_length k v
      rw [hfield f (by simp [List.length_append, hlen] at hfuel ⊢; omega)
        (by simp [List.length_append, hlen] at hfuel ⊢; omega)]
    | false =>
      simp only [Bool.false_eq_true, if_false, serFieldsTail] at hfuel ⊢
      rw [List.append_assoc, List.cons_append, serField_shape]
      rw [parseObjLoop]
      rw [skipSpace_cons_of_not (by decide)]
      simp only [headC, List.headD]
      rw [if_neg (by decide : ¬(',' : Char) = '}')]
      simp only [Bool.false_eq_true, if_false, eq_self_iff_true, if_true,
        List.tail_cons]
      rw [skipSpace_cons_of_not (by decide)]
      simp only [headC, List.headD]
      rw [if_neg (by decide : ¬('"' : Char) = '}')]
      have hlen := serField_length k v
      rw [hfield f (by simp [List.length_append, hlen] at hfuel ⊢; omega)
        (by simp [List.length_append, hlen] at hfuel ⊢; omega)]

end

/-- Round trip on the safe fragment: parsing the serialization (with quoted
names) of a safe value returns the value.  A bare top-level `int64_t` is
excluded: its serialization ends in the number token, which the C++ loop
overruns past the terminating NUL (see `parseNum`). -/
theorem jsonParser_serialize (v : jsonElement) (h : safeV v = true)
    (hTop : isIntV v = false) :
    jsonParser (String.mk (serialize v true)) = .ok v := by
  rw [jsonParser]
  have hdata : (String.mk (serialize v true)).data = serialize v true := rfl
  rw [hdata]
  have hp := parseElem_ser v ((serialize v true).length + 1) [] h
    (fun hint => absurd hint (by simp [hTop])) (by omega)
  rw [List.append_nil] at hp
  rw [hp]
  simp [Except.instMonad, Except.bind, skipSpace, pure, Except.pure]

/-- A demo adapter: always replies `{status:200}` and subscribes to one
topic (stands in for a `dabClient` instance; the bridge treats adapters
opaquely). -/
def demoAdapter : dabInterface :=
  { dispatchFn := fun _ => .ok (.jObj [("status", .jInt 200)])
    topics := ["dab/device1/deviceInfo"] }

/-- A bootstrap instance table with the single deviceId `device1`. -/
def demoInstances : List (String × dabInterface) := [("device1", demoAdapter)]

/-- A dispatch function that always succeeds with `{status:200}`. -/
def demoDisp : jsonElement → Except cppError jsonElement :=
  fun _ => .ok (.jObj [("status", .jInt 200)])

/-- C1 counterexample: a request whose dispatch raises a `dabException`
(topic `dab/ghost/deviceInfo`, deviceId `ghost` not registered, valid `{}`
payload, correlation data attached) produces no publish at all — the
exception is caught and only logged, so no error response reaches the
requester, contradicting the claimed "exactly one publish ... carrying an
error object built from the failure". -/
theorem messageArrived_drops_dispatch_errors :
    messageArrived (bridgeDispatch demoInstances) "dab/ghost/deviceInfo"
      "\x7b\x7d" ⟨none, some [222, 173, 190, 239]⟩ = [] := rfl

/-- C1 (amended): `messageArrived` makes at most one publish call, and makes
exactly one precisely when the payload parses and the bridge dispatch
succeeds; when payload parsing or dispatch fails — including every
`dabException`, such as status 400 for a malformed topic or an unknown
deviceId — nothing is published and the error is only logged. -/
theorem messageArrived_at_most_one_publish
    (disp : jsonElement → Except cppError jsonElement)
    (topic payload : String) (props : mqttProps) :
    (messageArrived disp topic payload props).length ≤ 1 ∧
    ((messageArrived disp topic payload props).length = 1 ↔
      ∃ req rsp, buildReq topic payload = .ok req ∧ disp req = .ok rsp) := by
  rw [messageArrived]
  cases hb : buildReq topic payload with
  | error e => simp [hb]
  | ok req =>
    cases hd : disp req with
    | error e => simp [hb, hd]
    | ok rsp => simp [hb, hd]

/-- C2: the bridge's dispatch rejects `dab/discovery` — a topic that begins
with `dab/` but has no further `/` — with 400 `topic is malformed`, instead
of treating the remainder as the method with no deviceId.  The repository's
own README lists `dab/discovery` among the operations the library serves,
so this is the code slip the claim describes. -/
theorem bridge_rejects_discovery_topic :
    bridgeDispatch demoInstances (.jObj [("topic", .jStr "dab/discovery")])
      = .error (.dab ⟨400, "topic is malformed"⟩) := rfl

/-- C3 counterexample: with no MQTT5 response-topic property on a request
received on `dab/device1/deviceInfo`, the reply goes to the hardcoded
`dab/response`, not to the incoming topic with `/response` appended — the
claimed middle fallback does not exist in `getResponseTopic`. -/
theorem response_topic_no_suffix_fallback :
    (messageArrived demoDisp "dab/device1/deviceInfo" "\x7b\x7d"
        ⟨none, none⟩).map publishedMsg.topic = ["dab/response"] ∧
    ¬("dab/response" = "dab/device1/deviceInfo" ++ "/response") := by
  constructor
  · rfl
  · decide

/-- C3 (amended): every reply published by `messageArrived` goes to the
request's MQTT5 response-topic property when that property is present, and
otherwise to the hardcoded default `dab/response`; the incoming topic plays
no part. -/
theorem messageArrived_response_topic
    (disp : jsonElement → Except cppError jsonElement)
    (topic payload : String) (props : mqttProps) (m : publishedMsg)
    (hm : m ∈ messageArrived disp topic payload props) :
    m.topic = getResponseTopic props := by
  cases hb : buildReq topic payload with
  | error e =>
    simp [messageArrived, hb] at hm
  | ok req =>
    cases hd : disp req with
    | error e =>
      simp [messageArrived, hb, hd] at hm
    | ok rsp =>
      simp only [messageArrived, hb, hd, List.mem_singleton] at hm
      rw [hm]

/-- C3 witness: the amended response-topic law at a concrete request. -/
theorem messageArrived_response_topic_witness :
    (⟨"dab/response", "\x7b\"status\":200\x7d", none⟩ : publishedMsg)
      ∈ messageArrived demoDisp "dab/device1/deviceInfo" "\x7b\x7d"
        ⟨none, none⟩ ∧
    (⟨"dab/response", "\x7b\"status\":200\x7d", none⟩ : publishedMsg).topic
      = getResponseTopic ⟨none, none⟩ :=
  ⟨by decide, messageArrived_response_topic demoDisp "dab/device1/deviceInfo"
    "\x7b\x7d" ⟨none, none⟩ _ (by decide)⟩

/-- C7: every reply `messageArrived` publishes for a request that carried
MQTT5 correlation-data carries exactly the request's correlation bytes —
the property is copied data-and-length onto the response message. -/
theorem messageArrived_preserves_correlation
    (disp : jsonElement → Except cppError jsonElement)
    (topic payload : String) (props : mqttProps) (m : publishedMsg)
    (bytes : List Nat)
    (hm : m ∈ messageArrived disp topic payload props)
    (hc : props.correlationData = some bytes) :
    m.correlation = some bytes := by
  cases hb : buildReq topic payload with
  | error e =>
    simp [messageArrived, hb] at hm
  | ok req =>
    cases hd : disp req with
    | error e =>
      simp [messageArrived, hb, hd] at hm
    | ok rsp =>
      simp only [messageArrived, hb, hd, List.mem_singleton] at hm
      rw [hm]
      exact hc

/-- C7 witness: correlation bytes `DE AD BE EF` echoed at a concrete
request. -/
theorem messageArrived_preserves_correlation_witness :
    (⟨"dab/response", "\x7b\"status\":200\x7d", some [222, 173, 190, 239]⟩
        : publishedMsg)
      ∈ messageArrived demoDisp "dab/device1/deviceInfo" "\x7b\x7d"
        ⟨none, some [222, 173, 190, 239]⟩ ∧
    (⟨none, some [222, 173, 190, 239]⟩ : mqttProps).correlationData
      = some [222, 173, 190, 239] ∧
    (⟨"dab/response", "\x7b\"status\":200\x7d", some [222, 173, 190, 239]⟩
        : publishedMsg).correlation = some [222, 173, 190, 239] :=
  ⟨by decide, rfl, messageArrived_preserves_correlation demoDisp
    "dab/device1/deviceInfo" "\x7b\x7d" ⟨none, some [222, 173, 190, 239]⟩
    _ [222, 173, 190, 239] (by decide) rfl⟩

/-- C5: a plain integer token is accepted and stored as `int64_t` (shown
nested, `[7]`, where the token is cleanly delimited by `]`), but a number
written with a fractional part (`1.5`) or an exponent (`2e3`) is not
accepted at all: `isNum` admits neither '.' nor 'e', so the token stops
there and the trailing text makes `jsonParser` throw `invalid json` — no
input is ever stored as a `double`. -/
theorem number_token_behaviour :
    jsonParser "[7]" = .ok (.jArr [.jInt 7]) ∧
    jsonParser "1.5" = .error "invalid json" ∧
    jsonParser "2e3" = .error "invalid json" :=
  ⟨rfl, rfl, rfl⟩

/-- C6: an unquoted object key of letters and underscores is accepted, but
a digit in any later position is rejected with `missing name/value
separator`: the code checks `isSymbol` (which admits digits) on the first
byte and then consumes only `isSymbolB` bytes (letters and underscore),
the exact swap of the claimed `[A-Za-z_][A-Za-z0-9_]*` shape. -/
theorem unquoted_key_behaviour :
    jsonParser "\x7bab:1\x7d" = .ok (.jObj [("ab", .jInt 1)]) ∧
    jsonParser "\x7ba9:1\x7d" = .error "missing name/value separator" :=
  ⟨rfl, rfl⟩

/-- C4 counterexample: the value `[1, true]` contains only printable ASCII,
yet `parse(serialize(v, quoteNames=true))` does not return it: the
serialization is `[1,true]`, the number token swallows the `,` (isNum
accepts every byte up to '-'), and the parse fails with `missing comma`. -/
theorem roundtrip_fails_for_nonfinal_int :
    jsonParser (String.mk (serialize (.jArr [.jInt 1, .jBool true]) true))
      = .error "missing comma" ∧
    ¬(jsonParser (String.mk (serialize (.jArr [.jInt 1, .jBool true]) true))
      = .ok (.jArr [.jInt 1, .jBool true])) := by
  constructor
  · rfl
  · intro h
    rw [show jsonParser (String.mk (serialize (.jArr [.jInt 1, .jBool true]) true))
        = Except.error "missing comma" from rfl] at h
    exact Except.noConfusion h

/-- C4 (amended): round trip on the safe fragment.  For every value `v`
with in-range `int64_t` components, printable-ASCII strings, object keys
additionally free of `"`, objects in `std::map` key order, no `double`
component, every `int64_t` only in final position of its enclosing array
or object, and `v` itself not a bare `int64_t` (a top-level number token
ends the buffer, where the `isNum '\0'` bug makes the C++ loop overrun the
terminating NUL — undefined behaviour, never a clean success),
`jsonParser (serialize v quoteNames:=true) = v`. -/
theorem serialize_parse_roundtrip (v : jsonElement) (h : safeV v = true)
    (hTop : isIntV v = false) :
    jsonParser (String.mk (serialize v true)) = .ok v :=
  jsonParser_serialize v h hTop

/-- C4 witness: the amended round trip at the concrete value
`{"a":"hi","b":5}`. -/
theorem serialize_parse_roundtrip_witness :
    safeV (.jObj [("a", .jStr "hi"), ("b", .jInt 5)]) = true ∧
    isIntV (.jObj [("a", .jStr "hi"), ("b", .jInt 5)]) = false ∧
    jsonParser (String.mk (serialize (.jObj [("a", .jStr "hi"), ("b", .jInt 5)])
        true))
      = .ok (.jObj [("a", .jStr "hi"), ("b", .jInt 5)]) :=
  ⟨rfl, rfl,
    serialize_parse_roundtrip (.jObj [("a", .jStr "hi"), ("b", .jInt 5)]) rfl rfl⟩

/-- C8 counterexample: the mutable `operator[](T index)` is not total: on a
null receiver (coerced to an empty array) with index 1, the vector is not
resized (the resize happens only when `index == size()`), and `arr[1]` is
an out-of-bounds access. -/
theorem arrIndexMut_skipped_index_oob :
    arrIndexMut .jNull 1 = none := rfl

/-- C8 (amended): the mutable `operator[](T index)` stays within bounds
exactly up to one past the end: a non-array receiver becomes an empty array
first, and for every `i ≤ size` the access is in bounds, appending exactly
one new `null` slot when `i = size` and touching nothing when `i < size`;
`i > size` is the out-of-bounds case of the counterexample. -/
theorem arrIndexMut_total_below (v : jsonElement) (i : Nat)
    (h : i ≤ (coerceArr v).length) :
    ∃ (l' : List jsonElement) (e : jsonElement),
      arrIndexMut v i = some (.jArr l', e) ∧ l'.get? i = some e ∧
      i + 1 ≤ l'.length ∧
      (i = (coerceArr v).length → l' = coerceArr v ++ [.jNull] ∧ e = .jNull) ∧
      (i < (coerceArr v).length → l' = coerceArr v) := by
  by_cases hi : i = (coerceArr v).length
  · have hget : (coerceArr v ++ [jsonElement.jNull]).get? i = some .jNull := by
      rw [hi, List.get?_eq_getElem?]
      simp
    refine ⟨coerceArr v ++ [.jNull], .jNull, ?_, hget,
      by simp [List.length_append]; omega,
      fun _ => ⟨rfl, rfl⟩, fun hcon => absurd hi (by omega)⟩
    rw [arrIndexMut]
    simp only [if_pos hi, hget]
  · have hlt : i < (coerceArr v).length := by omega
    have hget : (coerceArr v).get? i = some ((coerceArr v).get ⟨i, hlt⟩) :=
      List.get?_eq_get hlt
    refine ⟨coerceArr v, (coerceArr v).get ⟨i, hlt⟩, ?_, hget, by omega,
      fun hcon => absurd hcon hi, fun _ => rfl⟩
    rw [arrIndexMut]
    simp only [if_neg hi, hget]

/-- C8 witness: the amended totality law at the concrete receiver `null`
with index 0 (the receiver becomes `[null]` and the slot is in bounds). -/
theorem arrIndexMut_total_below_witness :
    0 ≤ (coerceArr .jNull).length ∧
    (∃ (l' : List jsonElement) (e : jsonElement),
      arrIndexMut .jNull 0 = some (.jArr l', e) ∧ l'.get? 0 = some e ∧
      0 + 1 ≤ l'.length ∧
      (0 = (coerceArr .jNull).length →
        l' = coerceArr .jNull ++ [.jNull] ∧ e = .jNull) ∧
      (0 < (coerceArr .jNull).length → l' = coerceArr .jNull)) :=
  ⟨by decide, arrIndexMut_total_below .jNull 0 (by decide)⟩

/-- C9: `dabBridge::dispatch` and `dabBridge::getTopics` leave the bridge's
adapter-instance table untouched on every input, including the inputs that
raise errors: every branch only reads `instances` (`find`, iteration) and
returns the state unchanged. -/
theorem bridge_instances_unchanged (b : dabBridge) (json : jsonElement) :
    (bridgeDispatchSt b json).1 = b ∧ (bridgeGetTopicsSt b).1 = b := by
  refine ⟨?_, rfl⟩
  rw [bridgeDispatchSt]
  repeat (first | rfl | split)

/-- C10: an object member explicitly bound to `null` (`monostate`) is
indistinguishable from an absent member through the public read interface:
`has` returns `false` and the strict const `operator[]` fails with
`element not found`, exactly as both do for a key that was never
inserted. -/
theorem null_member_indistinguishable (l : List (String × jsonElement))
    (k k' : String)
    (h : lookupF k l = some .jNull) (h' : lookupF k' l = none) :
    hasF (.jObj l) k = false ∧
    constGet (.jObj l) k = .error "element not found" ∧
    hasF (.jObj l) k = hasF (.jObj l) k' ∧
    constGet (.jObj l) k = constGet (.jObj l) k' := by
  simp [hasF, constGet, h, h']

/-- C10 witness: the object `{a: null}` at present key `a` and absent key
`b`. -/
theorem null_member_indistinguishable_witness :
    lookupF "a" [("a", jsonElement.jNull)] = some .jNull ∧
    lookupF "b" [("a", jsonElement.jNull)] = none ∧
    (hasF (.jObj [("a", jsonElement.jNull)]) "a" = false ∧
      constGet (.jObj [("a", jsonElement.jNull)]) "a"
        = .error "element not found" ∧
      hasF (.jObj [("a", jsonElement.jNull)]) "a"
        = hasF (.jObj [("a", jsonElement.jNull)]) "b" ∧
      constGet (.jObj [("a", jsonElement.jNull)]) "a"
        = constGet (.jObj [("a", jsonElement.jNull)]) "b") :=
  ⟨rfl, rfl, null_member_indistinguishable [("a", jsonElement.jNull)] "a" "b"
    rfl rfl⟩
